import Mathlib

/-!
Shallow embedding of `movie.py` (Movie Recommendation Engine) and proofs about
its scoring pipeline.

Real-number arithmetic in the source (Python floats, `math.sqrt`, `math.log`)
is embedded over an arbitrary linear ordered field `α` together with two
abstract function parameters `s` (for `math.sqrt`) and `lg` (for `math.log`);
theorems assume only the properties of these functions that they need, so they
hold in particular for the real square root and logarithm.  Python dicts are
embedded as association lists: the dicts built by the source always have
distinct keys, insertion order is preserved by the list order, and iteration
over a Python `set` (whose order Python leaves unspecified) only ever feeds
commutative sums here, so the order produced by `List.dedup` is immaterial.
`sorted(..., key=lambda x: x[1], reverse=True)` is a stable descending sort by
score; it is embedded as `List.insertionSort` with the non-strict relation
`fun x y => y.2 ≤ x.2`, which is stable and sorts by the same comparison,
hence produces the identical output list.
-/

set_option linter.unusedSectionVars false

namespace MovieRec

/-- An entry of the `MOVIES` catalog (`movie.py` lines 16-22). -/
structure Movie where
  id : Nat
  title : String
  year : Nat
  genres : List String
  tags : List String
  deriving DecidableEq

/-- The hardcoded catalog `MOVIES` (`movie.py` lines 16-22). -/
def MOVIES : List Movie :=
  [⟨1, "Inception", 2010, ["Action", "Sci-Fi", "Thriller"],
      ["dream", "heist", "mind-bending", "nolan"]⟩,
   ⟨2, "The Dark Knight", 2008, ["Action", "Crime", "Drama"],
      ["batman", "joker", "nolan"]⟩,
   ⟨3, "Interstellar", 2014, ["Adventure", "Drama", "Sci-Fi"],
      ["space", "time", "nolan", "wormhole"]⟩,
   ⟨4, "The Matrix", 1999, ["Action", "Sci-Fi"],
      ["simulation", "kung fu", "ai"]⟩,
   ⟨5, "Parasite", 2019, ["Drama", "Thriller"],
      ["class", "korean", "academy awards"]⟩]

/-- The catalog ids in iteration order: `[mv["id"] for mv in MOVIES]`. -/
def movieIds : List Nat := MOVIES.map (fun m => m.id)

variable {α : Type*} [LinearOrderedField α] {κ : Type*} [DecidableEq κ]

/-- The hardcoded community `COMMUNITY` (`movie.py` lines 24-27); the integer
ratings are embedded as field elements since the source mixes them into float
arithmetic. -/
def COMMUNITY : List (String × List (Nat × α)) :=
  [("u_alex", [(1, 5), (2, 5), (3, 5), (4, 5)]),
   ("u_bianca", [(5, 5), (3, 4)])]

/-- Association-list embedding of `d.get(k, d0)` on a Python dict. -/
def aget {β : Type*} (d0 : β) : List (κ × β) → κ → β
  | [], _ => d0
  | (k1, v) :: rest, k => if k = k1 then v else aget d0 rest k

/-- `d.get(k, 0)` for a numeric dict. -/
def dget (d : List (κ × α)) (k : κ) : α := aget 0 d k

/-- The keys of a dict, in insertion order. -/
def dkeys {β : Type*} (d : List (κ × β)) : List κ := d.map Prod.fst

/-- `set(a.keys()) | set(b.keys())` (`movie.py` line 32); Python set iteration
order is unspecified, and this union only feeds commutative sums. -/
def keyUnion {β : Type*} (a b : List (κ × β)) : List κ :=
  (dkeys a ++ dkeys b).dedup

/-- The accumulated `dot` of `cosine_sim` (`movie.py` lines 33-35). -/
def dotUnion (a b : List (κ × α)) : α :=
  ((keyUnion a b).map (fun k => dget a k * dget b k)).sum

/-- The accumulated `na` (squared L2 norm of `a`) of `cosine_sim`. -/
def naVal (a b : List (κ × α)) : α :=
  ((keyUnion a b).map (fun k => dget a k * dget a k)).sum

/-- The accumulated `nb` (squared L2 norm of `b`) of `cosine_sim`. -/
def nbVal (a b : List (κ × α)) : α :=
  ((keyUnion a b).map (fun k => dget b k * dget b k)).sum

/-- `cosine_sim(a, b)` (`movie.py` lines 30-40), with `math.sqrt` abstracted
as `s`. -/
def cosine_sim (s : α → α) (a b : List (κ × α)) : α :=
  if naVal a b = 0 ∨ nbVal a b = 0 then 0
  else dotUnion a b / (s (naVal a b) * s (nbVal a b))

/-- Per-character lowercasing of a string, as a character list
(Python `str.lower()`; the data here is plain ASCII). -/
def lowerChars (t : String) : List Char := t.toList.map Char.toLower

/-- A lowercased token string (dict keys of the TF-IDF vectors). -/
def lowerStr (t : String) : String := String.mk (lowerChars t)

/-- `" ".join(parts)` as a character list. -/
def joinSpace : List String → List Char
  | [] => []
  | [t] => t.toList
  | t :: rest => t.toList ++ ' ' :: joinSpace rest

/-- Does `q` occur at the start of `h`?  (Helper for Python's `in`.) -/
def startsWithL : List Char → List Char → Bool
  | [], _ => true
  | _ :: _, [] => false
  | c :: q, d :: h => c == d && startsWithL q h

/-- Python's substring test `q in h`, on character lists. -/
def hasSubL (q : List Char) : List Char → Bool
  | [] => q.isEmpty
  | d :: h => startsWithL q (d :: h) || hasSubL q h

/-- The token list of a movie: `[t.lower() for t in (m["genres"] + m["tags"])]`
(`movie.py` line 47). -/
def tokensOf (m : Movie) : List String := (m.genres ++ m.tags).map lowerStr

/-- The document frequency `df[t]` (`movie.py` lines 44-50): the number of
movies whose token set contains `t`. -/
def dfCount (movies : List Movie) (t : String) : Nat :=
  (movies.filter (fun m => decide (t ∈ tokensOf m))).length

/-- `idf[t] = log((N + 1) / (df[t] + 1)) + 1` (`movie.py` line 52), with
`math.log` abstracted as `lg`. -/
def idfVal (lg : α → α) (movies : List Movie) (t : String) : α :=
  lg (((movies.length : α) + 1) / ((dfCount movies t : α) + 1)) + 1

/-- `idf.get(t, 0)` (`movie.py` line 58): the `idf` dict has key `t` exactly
when some movie's tokens contain `t`, i.e. when `df[t] ≥ 1`. -/
def idfGet (lg : α → α) (movies : List Movie) (t : String) : α :=
  if 0 < dfCount movies t then idfVal lg movies t else 0

/-- One movie's TF-IDF vector `vec` (`movie.py` lines 54-58): term count times
idf, keyed by the distinct tokens. -/
def tfidfVecOf (lg : α → α) (movies : List Movie) (m : Movie) :
    List (String × α) :=
  (tokensOf m).dedup.map
    (fun t => (t, ((tokensOf m).count t : α) * idfGet lg movies t))

/-- `build_tfidf(movies)` (`movie.py` lines 43-60): id-keyed TF-IDF vectors. -/
def build_tfidf (lg : α → α) (movies : List Movie) :
    List (Nat × List (String × α)) :=
  movies.map (fun m => (m.id, tfidfVecOf lg movies m))

/-- `liked = [mid for mid, r in ratings.items() if r >= 4]`
(`movie.py` line 63). -/
def likedOf (ratings : List (Nat × α)) : List Nat :=
  (ratings.filter (fun p => decide (4 ≤ p.2))).map Prod.fst

/-- The distinct terms accumulated into `acc` (`movie.py` lines 66-70),
i.e. the keys of the `acc` dict. -/
def profTerms (tfidf : List (Nat × List (String × α))) (liked : List Nat) :
    List String :=
  (liked.map (fun mid => dkeys (aget [] tfidf mid))).flatten.dedup

/-- `acc[t]`: the term-wise sum over the liked movies' vectors
(`movie.py` lines 66-70). -/
def accOf (tfidf : List (Nat × List (String × α))) (liked : List Nat)
    (t : String) : α :=
  (liked.map (fun mid => dget (aget [] tfidf mid) t)).sum

/-- `math.sqrt(sum(v * v for v in acc.values()))` (`movie.py` line 71). -/
def profileNorm (s : α → α) (tfidf : List (Nat × List (String × α)))
    (liked : List Nat) : α :=
  s (((profTerms tfidf liked).map
        (fun t => accOf tfidf liked t * accOf tfidf liked t)).sum)

/-- `build_user_profile(tfidf_vectors, ratings)` (`movie.py` lines 62-72);
`or 1` on a float is the identity unless the float is `0.0`. -/
def build_user_profile (s : α → α) (tfidf : List (Nat × List (String × α)))
    (ratings : List (Nat × α)) : List (String × α) :=
  let liked := likedOf ratings
  if liked = [] then []
  else
    let nrm0 := profileNorm s tfidf liked
    let nrm := if nrm0 = 0 then 1 else nrm0
    (profTerms tfidf liked).map (fun t => (t, accOf tfidf liked t / nrm))

/-- The `sims` list of `predict_cf` (`movie.py` lines 76-79):
`(userId, similarity, ratings)` per community member. -/
def cfSims (s : α → α) (ratings : List (Nat × α))
    (community : List (String × List (Nat × α))) :
    List (String × α × List (Nat × α)) :=
  community.map (fun u => (u.1, cosine_sim s ratings u.2, u.2))

/-- `sims.sort(key=lambda x: x[1], reverse=True)` (`movie.py` line 80):
stable descending sort by similarity. -/
def sortSimsDesc (l : List (String × α × List (Nat × α))) :
    List (String × α × List (Nat × α)) :=
  List.insertionSort (fun x y => y.2.1 ≤ x.2.1) l

/-- `neighbors = [s for s in sims if s[1] > 0][:k]` (`movie.py` line 81). -/
def cfNeighbors (s : α → α) (ratings : List (Nat × α))
    (community : List (String × List (Nat × α))) (k : Nat := 3) :
    List (String × α × List (Nat × α)) :=
  ((sortSimsDesc (cfSims s ratings community)).filter
      (fun x => decide (0 < x.2.1))).take k

/-- The neighbors that rated movie `m` (the loop body of `movie.py`
lines 87-90 only accumulates over these). -/
def cfRated (s : α → α) (ratings : List (Nat × α))
    (community : List (String × List (Nat × α))) (k : Nat) (m : Nat) :
    List (String × α × List (Nat × α)) :=
  (cfNeighbors s ratings community k).filter (fun nb => decide (m ∈ dkeys nb.2.2))

/-- The accumulated `num` for movie `m` (`movie.py` lines 86-89). -/
def cfNum (s : α → α) (ratings : List (Nat × α))
    (community : List (String × List (Nat × α))) (k : Nat) (m : Nat) : α :=
  ((cfRated s ratings community k m).map (fun nb => nb.2.1 * dget nb.2.2 m)).sum

/-- The accumulated `den` for movie `m` (`movie.py` lines 86-90). -/
def cfDen (s : α → α) (ratings : List (Nat × α))
    (community : List (String × List (Nat × α))) (k : Nat) (m : Nat) : α :=
  ((cfRated s ratings community k m).map (fun nb => |nb.2.1|)).sum

/-- `predict_cf(ratings, community, k=3)` (`movie.py` lines 75-93): skip rated
movies, and record `num / den` exactly when `den > 0`. -/
def predict_cf (s : α → α) (ratings : List (Nat × α))
    (community : List (String × List (Nat × α))) (k : Nat := 3) :
    List (Nat × α) :=
  movieIds.filterMap (fun m =>
    if m ∈ dkeys ratings then none
    else if 0 < cfDen s ratings community k m then
      some (m, cfNum s ratings community k m / cfDen s ratings community k m)
    else none)

/-- `predict_cb(tfidf_vectors, user_profile, ratings)` (`movie.py`
lines 95-103). -/
def predict_cb (s : α → α) (tfidf : List (Nat × List (String × α)))
    (user_profile : List (String × α)) (ratings : List (Nat × α)) :
    List (Nat × α) :=
  MOVIES.filterMap (fun m =>
    if m.id ∈ dkeys ratings then none
    else some (m.id, cosine_sim s user_profile (aget [] tfidf m.id) * 5))

/-- The `results` dict of `hybrid_scores` before sorting (`movie.py`
lines 106-111); `if cf or cb:` keeps a movie exactly when either float is
nonzero (Python float truthiness). -/
def hybridPre (cf cb : List (Nat × α)) (alpha : α) : List (Nat × α) :=
  movieIds.filterMap (fun m =>
    if dget cf m ≠ 0 ∨ dget cb m ≠ 0 then
      some (m, alpha * dget cf m + (1 - alpha) * dget cb m)
    else none)

/-- `dict(sorted(d.items(), key=lambda x: x[1], reverse=True))`: stable
descending sort of a score map by score. -/
def sortScoresDesc (l : List (Nat × α)) : List (Nat × α) :=
  List.insertionSort (fun x y => y.2 ≤ x.2) l

/-- `hybrid_scores(cf_scores, cb_scores, alpha=0.6)` (`movie.py`
lines 105-112); the float literal `0.6` is `6/10`. -/
def hybrid_scores (cf cb : List (Nat × α)) (alpha : α := 6 / 10) :
    List (Nat × α) :=
  sortScoresDesc (hybridPre cf cb alpha)

/-- Placeholder movie for the total embedding of `next(...)`; see
`movieById`. -/
def defaultMovie : Movie := ⟨0, "", 0, [], []⟩

/-- `next(m for m in MOVIES if m["id"] == mid)` (`movie.py` lines 121 and
207).  The source raises `StopIteration` when `mid` is not a catalog id; that
branch is unreachable on pipeline output, whose keys all come from `MOVIES`,
and is embedded as a default movie. -/
def movieById (mid : Nat) : Movie :=
  (MOVIES.find? (fun m => m.id == mid)).getD defaultMovie

/-- The lowercased haystack `" ".join([m["title"]] + m["genres"] +
m["tags"]).lower()` (`movie.py` lines 122 and 208). -/
def hayOf (m : Movie) : List Char :=
  (joinSpace ([m.title] ++ m.genres ++ m.tags)).map Char.toLower

/-- `boost = 2.0 if q in hay else 0` (`movie.py` line 123). -/
def boostAmt (prompt : String) (mid : Nat) : α :=
  if hasSubL (lowerChars prompt) (hayOf (movieById mid)) then 2 else 0

/-- `apply_prompt_boost(hybrid, prompt)` (`movie.py` lines 115-125):
`not prompt` on a string is the empty-string test. -/
def apply_prompt_boost (hybrid : List (Nat × α)) (prompt : String) :
    List (Nat × α) :=
  if prompt = "" then hybrid
  else sortScoresDesc (hybrid.map (fun p => (p.1, p.2 + boostAmt prompt p.1)))

/-- The blended score map computed by the request handler (`movie.py`
lines 197-202) for a given rating input. -/
def pipelineHybrid (s lg : α → α) (ratings : List (Nat × α)) :
    List (Nat × α) :=
  let tfidf := build_tfidf lg MOVIES
  let profile := build_user_profile s tfidf ratings
  let cf := predict_cf s ratings COMMUNITY
  let cb := predict_cb s tfidf profile ratings
  hybrid_scores cf cb (6 / 10)

/-- The caller's redundant boost test
`prompt.lower() in " ".join([m["title"]] + m["genres"] + m["tags"]).lower()`
(`movie.py` line 208). -/
def boostFlag (prompt : String) (mid : Nat) : Bool :=
  hasSubL (lowerChars prompt) (hayOf (movieById mid))

/-- The rendered recommendation rows `(mid, score, boosted_flag)` built by the
request handler (`movie.py` lines 203-209), truncated to the top 5. -/
def pipelineRecs (s lg : α → α) (ratings : List (Nat × α)) (prompt : String) :
    List (Nat × α × Bool) :=
  ((apply_prompt_boost (pipelineHybrid s lg ratings) prompt).take 5).map
    (fun p => (p.1, p.2, boostFlag prompt p.1))

/-- A computable stand-in for `math.sqrt` over `ℚ`, exact on squares of
naturals; used to instantiate the abstract `s` at concrete inputs. -/
def ratSqrt (x : ℚ) : ℚ := (x.num.toNat.sqrt : ℚ)

/-- A stand-in for `math.log` over `ℚ` that is zero everywhere; it satisfies
the monotonicity-free hypotheses the theorems place on `lg`. -/
def zeroLog (_ : ℚ) : ℚ := 0

/-! ## Generic helper lemmas -/

theorem aget_nil {β : Type*} (d0 : β) (k : κ) :
    aget (κ := κ) d0 [] k = d0 := rfl

theorem aget_cons {β : Type*} (d0 : β) (k1 : κ) (v : β) (rest : List (κ × β))
    (k : κ) : aget d0 ((k1, v) :: rest) k = if k = k1 then v else aget d0 rest k :=
  rfl

theorem dget_eq_zero_of_not_mem {d : List (κ × α)} {k : κ}
    (h : k ∉ dkeys d) : dget d k = 0 := by
  induction d with
  | nil => rfl
  | cons p rest ih =>
      obtain ⟨k1, v⟩ := p
      simp only [dkeys, List.map_cons, List.mem_cons] at h
      push_neg at h
      simp only [dget, aget, if_neg h.1]
      exact ih h.2

theorem mem_dkeys_iff {β : Type*} {d : List (κ × β)} {k : κ} :
    k ∈ dkeys d ↔ ∃ v, (k, v) ∈ d := by
  induction d with
  | nil => simp [dkeys]
  | cons p rest ih =>
      obtain ⟨k1, v1⟩ := p
      simp only [dkeys, List.map_cons, List.mem_cons] at *
      constructor
      · rintro (rfl | h)
        · exact ⟨v1, Or.inl rfl⟩
        · obtain ⟨v, hv⟩ := ih.mp h
          exact ⟨v, Or.inr hv⟩
      · rintro ⟨v, (h | h)⟩
        · cases h
          exact Or.inl rfl
        · exact Or.inr (ih.mpr ⟨v, h⟩)

theorem dget_of_mem_nodup {d : List (κ × α)} {k : κ} {v : α}
    (hnd : (dkeys d).Nodup) (hm : (k, v) ∈ d) : dget d k = v := by
  induction d with
  | nil => cases hm
  | cons p rest ih =>
      obtain ⟨k1, v1⟩ := p
      simp only [dkeys, List.map_cons, List.nodup_cons] at hnd
      rcases List.mem_cons.mp hm with h | h
      · cases h
        simp [dget, aget]
      · have hk : k ≠ k1 := by
          rintro rfl
          exact hnd.1 (mem_dkeys_iff.mpr ⟨v, h⟩)
        simp only [dget, aget, if_neg hk]
        exact ih hnd.2 h

theorem sortScoresDesc_perm (l : List (Nat × α)) :
    (sortScoresDesc l).Perm l :=
  List.perm_insertionSort _ l

theorem sortScoresDesc_sorted (l : List (Nat × α)) :
    List.Sorted (fun x y : Nat × α => y.2 ≤ x.2) (sortScoresDesc l) := by
  haveI : IsTotal (Nat × α) (fun x y => y.2 ≤ x.2) := ⟨fun a b => le_total b.2 a.2⟩
  haveI : IsTrans (Nat × α) (fun x y => y.2 ≤ x.2) := ⟨fun _ _ _ h1 h2 => le_trans h2 h1⟩
  exact List.sorted_insertionSort _ l

theorem hasSubL_nil_left (h : List Char) : hasSubL [] h = true := by
  cases h <;> simp [hasSubL, startsWithL]

theorem boostFlag_empty (mid : Nat) : boostFlag "" mid = true := by
  have : lowerChars "" = [] := rfl
  rw [boostFlag, this, hasSubL_nil_left]

theorem apply_prompt_boost_empty (hybrid : List (Nat × α)) :
    apply_prompt_boost hybrid "" = hybrid := by
  simp [apply_prompt_boost]

/-! ## Claim C2 — blank query and the Prompt Booster -/

/-- C2 (counterexample): the claim extends "blank" to whitespace-only queries,
but `apply_prompt_boost` only short-circuits on the empty string.  On the
ScoreMap `{1: 0}` a query of a single space matches every haystack (they are
space-joined), so the output is `{1: 2.0}`, not the unchanged input. -/
theorem C2_counterexample :
    apply_prompt_boost [((1 : Nat), (0 : ℚ))] " " ≠ [((1 : Nat), (0 : ℚ))] := by
  have hne : (" " : String) ≠ "" := by decide
  have hsub : hasSubL (lowerChars " ") (hayOf (movieById 1)) = true := by decide
  simp only [apply_prompt_boost, if_neg hne, List.map, boostAmt, hsub, if_pos,
    sortScoresDesc, List.insertionSort]
  intro hcontra
  have := List.head_eq_of_cons_eq hcontra
  have h2 : (0 : ℚ) + 2 = 0 := congrArg Prod.snd this
  norm_num at h2

/-- C2 (amended): if the query is the empty string — the request handler
represents an absent prompt as `""` — the Prompt Booster returns its input
unchanged, same items, scores and order; a whitespace-only query is *not*
treated as blank (it reaches the substring test, which a space passes for
every catalog item). -/
theorem C2_theorem (hybrid : List (Nat × α)) :
    apply_prompt_boost hybrid "" = hybrid :=
  apply_prompt_boost_empty hybrid

theorem dget_nonneg {d : List (κ × α)} (h : ∀ p ∈ d, 0 ≤ p.2) (k : κ) :
    0 ≤ dget d k := by
  induction d with
  | nil => exact le_refl 0
  | cons p rest ih =>
      obtain ⟨k1, v⟩ := p
      simp only [dget, aget]
      split
      · exact h (k1, v) (List.mem_cons_self _ _)
      · exact ih (fun q hq => h q (List.mem_cons_of_mem _ hq))

theorem naVal_nonneg (a b : List (κ × α)) : 0 ≤ naVal a b :=
  List.sum_nonneg (by
    intro x hx
    obtain ⟨k, -, rfl⟩ := List.mem_map.mp hx
    exact mul_self_nonneg _)

theorem nbVal_nonneg (a b : List (κ × α)) : 0 ≤ nbVal a b :=
  List.sum_nonneg (by
    intro x hx
    obtain ⟨k, -, rfl⟩ := List.mem_map.mp hx
    exact mul_self_nonneg _)

theorem dotUnion_nonneg {a b : List (κ × α)} (ha : ∀ p ∈ a, 0 ≤ p.2)
    (hb : ∀ p ∈ b, 0 ≤ p.2) : 0 ≤ dotUnion a b :=
  List.sum_nonneg (by
    intro x hx
    obtain ⟨k, -, rfl⟩ := List.mem_map.mp hx
    exact mul_nonneg (dget_nonneg ha k) (dget_nonneg hb k))

/-- Cauchy–Schwarz over the key union: `dot² ≤ na * nb`. -/
theorem dotUnion_sq_le (a b : List (κ × α)) :
    dotUnion a b ^ 2 ≤ naVal a b * nbVal a b := by
  have hnd : (keyUnion a b).Nodup := List.nodup_dedup _
  have hdot : dotUnion a b =
      (keyUnion a b).toFinset.sum (fun k => dget a k * dget b k) :=
    (List.sum_toFinset _ hnd).symm
  have hna : naVal a b =
      (keyUnion a b).toFinset.sum (fun k => dget a k ^ 2) := by
    rw [naVal, List.sum_toFinset _ hnd]
    simp [pow_two]
  have hnb : nbVal a b =
      (keyUnion a b).toFinset.sum (fun k => dget b k ^ 2) := by
    rw [nbVal, List.sum_toFinset _ hnd]
    simp [pow_two]
  rw [hdot, hna, hnb]
  exact Finset.sum_mul_sq_le_sq_mul_sq _ _ _

/-! ## Claim C1 — the Blender's item set and mixing formula -/

/-- C1 (counterexample): the claim says the Blender's output contains every
item that appears as a key of either input map.  On the inputs
`cf = {}`, `cb = {4: 0}` the catalog item `4` is a key of the content map,
yet `hybrid_scores` drops it: `if cf or cb` excludes items whose two looked-up
scores are both the (falsy) float zero. -/
theorem C1_counterexample :
    (4 : Nat) ∈ dkeys [((4 : Nat), (0 : ℚ))] ∧
      (4 : Nat) ∉ dkeys (hybrid_scores ([] : List (Nat × ℚ)) [(4, 0)]) := by
  constructor
  · simp [dkeys]
  · simp [hybrid_scores, hybridPre, sortScoresDesc, movieIds, MOVIES, dget,
      aget, dkeys, List.insertionSort]

/-- C1 (amended): a pair `(m, v)` is in the Blender's output iff `m` is a
catalog id whose two looked-up scores (0 for a missing key) are not both
zero — so an item keyed in an input map with score 0 on both sides, or an item
outside the catalog, is excluded — and then `v = 0.6 * cf + 0.4 * cb`. -/
theorem mem_hybrid_iff (cf cb : List (Nat × α)) (alpha : α) (m : Nat) (v : α) :
    (m, v) ∈ hybrid_scores cf cb alpha ↔
      m ∈ movieIds ∧ (dget cf m ≠ 0 ∨ dget cb m ≠ 0) ∧
        v = alpha * dget cf m + (1 - alpha) * dget cb m := by
  rw [hybrid_scores, sortScoresDesc,
    (List.perm_insertionSort _ (hybridPre cf cb alpha)).mem_iff,
    hybridPre, List.mem_filterMap]
  constructor
  · rintro ⟨m1, hm1, hsome⟩
    by_cases hc : dget cf m1 ≠ 0 ∨ dget cb m1 ≠ 0
    · rw [if_pos hc] at hsome
      obtain ⟨h1, h2⟩ := Prod.mk.injEq .. ▸ Option.some.inj hsome
      subst h1
      subst h2
      exact ⟨hm1, hc, rfl⟩
    · rw [if_neg hc] at hsome
      cases hsome
  · rintro ⟨hm, hc, rfl⟩
    refine ⟨m, hm, ?_⟩
    rw [if_pos hc]

theorem C1_theorem (cf cb : List (Nat × α)) (m : Nat) (v : α) :
    (m, v) ∈ hybrid_scores cf cb ↔
      m ∈ movieIds ∧ (dget cf m ≠ 0 ∨ dget cb m ≠ 0) ∧
        v = 6 / 10 * dget cf m + 4 / 10 * dget cb m := by
  rw [mem_hybrid_iff cf cb (6 / 10) m v]
  constructor
  · rintro ⟨h1, h2, rfl⟩
    exact ⟨h1, h2, by ring⟩
  · rintro ⟨h1, h2, rfl⟩
    exact ⟨h1, h2, by ring⟩

/-! ## Claim C3 — which stage outputs are sorted -/

theorem ratSqrt_natSq (n : Nat) : ratSqrt ((n : ℚ) * n) = n := by
  rw [ratSqrt]
  have h : ((n : ℚ) * n) = ((n * n : Nat) : ℚ) := by push_cast; ring
  rw [h, Rat.num_natCast, Int.toNat_natCast, Nat.sqrt_eq]

/-- C3 (counterexample): the Collaborative Predictor's output is in catalog
iteration order, not sorted by score.  With the rating input `{1: 5}` and a
single peer who rated movies 1, 2, 3 as 4, 2, 4 (norms 25 and 36, so the real
square roots are exact and `ratSqrt` computes them), the similarity is `2/3`
and the prediction map is `{2: 2.0, 3: 4.0}` — strictly increasing. -/
theorem C3_counterexample :
    ¬ List.Sorted (fun x y : Nat × ℚ => y.2 ≤ x.2)
      (predict_cf ratSqrt [(1, 5)] [("u", [(1, 4), (2, 2), (3, 4)])]) := by
  have h25 : ratSqrt 25 = 5 := by
    have := ratSqrt_natSq 5
    norm_num at this
    exact this
  have h36 : ratSqrt 36 = 6 := by
    have := ratSqrt_natSq 6
    norm_num at this
    exact this
  have hku : keyUnion [((1 : Nat), (5 : ℚ))] [(1, 4), (2, 2), (3, 4)] =
      [1, 2, 3] := by decide
  have hna : naVal [((1 : Nat), (5 : ℚ))] [(1, 4), (2, 2), (3, 4)] = 25 := by
    rw [naVal, hku]
    simp [dget, aget]
    norm_num
  have hnb : nbVal [((1 : Nat), (5 : ℚ))] [(1, 4), (2, 2), (3, 4)] = 36 := by
    rw [nbVal, hku]
    simp [dget, aget]
    norm_num
  have hdot : dotUnion [((1 : Nat), (5 : ℚ))] [(1, 4), (2, 2), (3, 4)] = 20 := by
    rw [dotUnion, hku]
    simp [dget, aget]
    norm_num
  have hcos : cosine_sim ratSqrt [((1 : Nat), (5 : ℚ))] [(1, 4), (2, 2), (3, 4)] =
      2 / 3 := by
    rw [cosine_sim, hna, hnb, hdot, h25, h36]
    norm_num
  have hsims : cfSims ratSqrt [((1 : Nat), (5 : ℚ))]
      [("u", [(1, 4), (2, 2), (3, 4)])] =
      [("u", 2 / 3, [(1, 4), (2, 2), (3, 4)])] := by
    rw [cfSims]
    simp [hcos]
  have hnbrs : cfNeighbors ratSqrt [((1 : Nat), (5 : ℚ))]
      [("u", [(1, 4), (2, 2), (3, 4)])] 3 =
      [("u", 2 / 3, [(1, 4), (2, 2), (3, 4)])] := by
    rw [cfNeighbors, hsims, sortSimsDesc]
    norm_num [List.insertionSort, List.filter]
  have hcf : predict_cf ratSqrt [((1 : Nat), (5 : ℚ))]
      [("u", [(1, 4), (2, 2), (3, 4)])] = [(2, 2), (3, 4)] := by
    rw [predict_cf]
    norm_num [movieIds, MOVIES, List.filterMap, cfNum, cfDen, cfRated, hnbrs,
      dkeys, dget, aget, List.filter, abs_of_pos]
  rw [hcf]
  intro hsort
  rcases List.sorted_cons.mp hsort with ⟨hrel, -⟩
  have := hrel (3, 4) (by simp)
  norm_num at this

/-- C3 (amended): the Blender's output is always non-increasing by score, and
the Prompt Booster's output is non-increasing for every non-blank query (on a
blank query it returns its input, preserving the input's order); the
Collaborative and Content Predictors' outputs are in catalog iteration order,
which need not be descending. -/
theorem C3_theorem (cf cb : List (Nat × α)) (alpha : α) (h : List (Nat × α))
    (prompt : String) (hp : prompt ≠ "") :
    List.Sorted (fun x y : Nat × α => y.2 ≤ x.2) (hybrid_scores cf cb alpha) ∧
      List.Sorted (fun x y : Nat × α => y.2 ≤ x.2)
        (apply_prompt_boost h prompt) := by
  constructor
  · exact sortScoresDesc_sorted _
  · rw [apply_prompt_boost, if_neg hp]
    exact sortScoresDesc_sorted _

/-- Closed instance of `C3_theorem` at concrete inputs. -/
theorem C3_theorem_witness :
    List.Sorted (fun x y : Nat × ℚ => y.2 ≤ x.2)
        (hybrid_scores [(2, 1)] [(3, 4)] (6 / 10)) ∧
      List.Sorted (fun x y : Nat × ℚ => y.2 ≤ x.2)
        (apply_prompt_boost [(2, 1), (3, 4)] "sci-fi") :=
  C3_theorem [(2, 1)] [(3, 4)] (6 / 10) [(2, 1), (3, 4)] "sci-fi" (by decide)

/-! ## Claim C10 — empty-prompt boosted flag -/

/-- C10: when the prompt field is the empty string, the Prompt Booster
returns the blend unchanged, yet the request handler's recomputed substring
test marks every returned row's boosted flag true (the empty string is a
substring of every haystack), so the flag does not mean "+2.0 was applied". -/
theorem C10_theorem (s lg : α → α) (ratings : List (Nat × α)) :
    apply_prompt_boost (pipelineHybrid s lg ratings) "" =
        pipelineHybrid s lg ratings ∧
      ∀ r ∈ pipelineRecs s lg ratings "", r.2.2 = true := by
  refine ⟨apply_prompt_boost_empty _, ?_⟩
  intro r hr
  simp only [pipelineRecs, List.mem_map] at hr
  obtain ⟨p, _, rfl⟩ := hr
  exact boostFlag_empty p.1

/-! ## Claim C5 — the Similarity Kernel is total and bounded -/

/-- C5: for non-negative weight mappings, `cosine_sim` lies in `[0, 1]`;
whenever either squared L2 norm is `0` it returns exactly `0` without ever
reaching the division, and the division branch is reached only when both
norms are strictly positive.  `math.sqrt` is abstracted as `s`, assumed
non-negative and an exact square root at the two norms actually passed. -/
theorem C5_theorem (s : α → α) (a b : List (κ × α))
    (ha : ∀ p ∈ a, 0 ≤ p.2) (hb : ∀ p ∈ b, 0 ≤ p.2)
    (hsa0 : 0 ≤ s (naVal a b))
    (hsa : s (naVal a b) * s (naVal a b) = naVal a b)
    (hsb0 : 0 ≤ s (nbVal a b))
    (hsb : s (nbVal a b) * s (nbVal a b) = nbVal a b) :
    0 ≤ cosine_sim s a b ∧ cosine_sim s a b ≤ 1 ∧
      ((naVal a b = 0 ∨ nbVal a b = 0) → cosine_sim s a b = 0) ∧
      (¬ (naVal a b = 0 ∨ nbVal a b = 0) →
        0 < naVal a b ∧ 0 < nbVal a b ∧
          cosine_sim s a b =
            dotUnion a b / (s (naVal a b) * s (nbVal a b))) := by
  by_cases hc : naVal a b = 0 ∨ nbVal a b = 0
  · rw [cosine_sim, if_pos hc]
    exact ⟨le_refl 0, zero_le_one, fun _ => rfl, fun h => absurd hc h⟩
  · push_neg at hc
    have hna : 0 < naVal a b :=
      lt_of_le_of_ne (naVal_nonneg a b) (Ne.symm hc.1)
    have hnb : 0 < nbVal a b :=
      lt_of_le_of_ne (nbVal_nonneg a b) (Ne.symm hc.2)
    have hsane : s (naVal a b) ≠ 0 := by
      intro h0
      rw [h0, mul_zero] at hsa
      exact hc.1 hsa.symm
    have hsbne : s (nbVal a b) ≠ 0 := by
      intro h0
      rw [h0, mul_zero] at hsb
      exact hc.2 hsb.symm
    have hsapos : 0 < s (naVal a b) := lt_of_le_of_ne hsa0 (Ne.symm hsane)
    have hsbpos : 0 < s (nbVal a b) := lt_of_le_of_ne hsb0 (Ne.symm hsbne)
    have hdenpos : 0 < s (naVal a b) * s (nbVal a b) := mul_pos hsapos hsbpos
    have hdotle : dotUnion a b ≤ s (naVal a b) * s (nbVal a b) := by
      have hsq : (s (naVal a b) * s (nbVal a b)) ^ 2 =
          naVal a b * nbVal a b := by
        calc (s (naVal a b) * s (nbVal a b)) ^ 2
            = (s (naVal a b) * s (naVal a b)) *
                (s (nbVal a b) * s (nbVal a b)) := by ring
          _ = naVal a b * nbVal a b := by rw [hsa, hsb]
      have h2 : dotUnion a b ^ 2 ≤ (s (naVal a b) * s (nbVal a b)) ^ 2 := by
        rw [hsq]
        exact dotUnion_sq_le a b
      exact le_of_pow_le_pow_left₀ (Nat.succ_ne_zero 1) (le_of_lt hdenpos) h2
    have hcos : cosine_sim s a b =
        dotUnion a b / (s (naVal a b) * s (nbVal a b)) := by
      rw [cosine_sim, if_neg (not_or.mpr ⟨hc.1, hc.2⟩)]
    refine ⟨?_, ?_, fun h => absurd h (not_or.mpr ⟨hc.1, hc.2⟩),
      fun _ => ⟨hna, hnb, hcos⟩⟩
    · rw [hcos]
      exact div_nonneg (dotUnion_nonneg ha hb) (le_of_lt hdenpos)
    · rw [hcos]
      exact (div_le_one hdenpos).mpr hdotle

theorem ratSqrt_25 : ratSqrt 25 = 5 := by
  have := ratSqrt_natSq 5
  norm_num at this
  exact this

theorem cosW_na :
    naVal [((0 : Nat), (3 : ℚ)), (1, 4)] [(0, 4), (1, 3)] = 25 := by
  have hku : keyUnion [((0 : Nat), (3 : ℚ)), (1, 4)] [(0, 4), (1, 3)] =
      [0, 1] := by decide
  rw [naVal, hku]
  norm_num [dget, aget]

theorem cosW_nb :
    nbVal [((0 : Nat), (3 : ℚ)), (1, 4)] [(0, 4), (1, 3)] = 25 := by
  have hku : keyUnion [((0 : Nat), (3 : ℚ)), (1, 4)] [(0, 4), (1, 3)] =
      [0, 1] := by decide
  rw [nbVal, hku]
  norm_num [dget, aget]

/-- Closed instance of `C5_theorem`: the two weight vectors `{0: 3, 1: 4}`
and `{0: 4, 1: 3}`, whose squared norms are both 25, where `ratSqrt` is the
exact square root. -/
theorem C5_theorem_witness :
    0 ≤ cosine_sim ratSqrt [((0 : Nat), (3 : ℚ)), (1, 4)] [(0, 4), (1, 3)] ∧
      cosine_sim ratSqrt [((0 : Nat), (3 : ℚ)), (1, 4)] [(0, 4), (1, 3)] ≤ 1 ∧
      ((naVal [((0 : Nat), (3 : ℚ)), (1, 4)] [(0, 4), (1, 3)] = 0 ∨
          nbVal [((0 : Nat), (3 : ℚ)), (1, 4)] [(0, 4), (1, 3)] = 0) →
        cosine_sim ratSqrt [((0 : Nat), (3 : ℚ)), (1, 4)] [(0, 4), (1, 3)] = 0) ∧
      (¬ (naVal [((0 : Nat), (3 : ℚ)), (1, 4)] [(0, 4), (1, 3)] = 0 ∨
          nbVal [((0 : Nat), (3 : ℚ)), (1, 4)] [(0, 4), (1, 3)] = 0) →
        0 < naVal [((0 : Nat), (3 : ℚ)), (1, 4)] [(0, 4), (1, 3)] ∧
          0 < nbVal [((0 : Nat), (3 : ℚ)), (1, 4)] [(0, 4), (1, 3)] ∧
          cosine_sim ratSqrt [((0 : Nat), (3 : ℚ)), (1, 4)] [(0, 4), (1, 3)] =
            dotUnion [((0 : Nat), (3 : ℚ)), (1, 4)] [(0, 4), (1, 3)] /
              (ratSqrt (naVal [((0 : Nat), (3 : ℚ)), (1, 4)] [(0, 4), (1, 3)]) *
                ratSqrt (nbVal [((0 : Nat), (3 : ℚ)), (1, 4)] [(0, 4), (1, 3)]))) :=
  C5_theorem ratSqrt [((0 : Nat), (3 : ℚ)), (1, 4)] [(0, 4), (1, 3)]
    (by norm_num) (by norm_num)
    (by rw [cosW_na, ratSqrt_25]; norm_num)
    (by rw [cosW_na, ratSqrt_25]; norm_num)
    (by rw [cosW_nb, ratSqrt_25]; norm_num)
    (by rw [cosW_nb, ratSqrt_25]; norm_num)

/-! ## Claim C4 — structure of the Collaborative Predictor -/

theorem cfNeighbors_sim_pos {s : α → α} {ratings : List (Nat × α)}
    {community : List (String × List (Nat × α))} {k : Nat}
    {nb : String × α × List (Nat × α)}
    (h : nb ∈ cfNeighbors s ratings community k) : 0 < nb.2.1 := by
  rw [cfNeighbors] at h
  have h1 := (List.take_sublist _ _).mem h
  have h2 := List.of_mem_filter h1
  simp only [decide_eq_true_eq] at h2
  exact h2

theorem cfNeighbors_length_le (s : α → α) (ratings : List (Nat × α))
    (community : List (String × List (Nat × α))) (k : Nat) :
    (cfNeighbors s ratings community k).length ≤ k := by
  rw [cfNeighbors]
  exact List.length_take_le _ _

theorem cfNeighbors_mem_sims {s : α → α} {ratings : List (Nat × α)}
    {community : List (String × List (Nat × α))} {k : Nat}
    {nb : String × α × List (Nat × α)}
    (h : nb ∈ cfNeighbors s ratings community k) :
    nb ∈ cfSims s ratings community := by
  rw [cfNeighbors] at h
  have h1 := (List.filter_sublist _).mem ((List.take_sublist _ _).mem h)
  exact (List.perm_insertionSort _ _).mem_iff.mp h1

theorem cfNeighbors_sorted (s : α → α) (ratings : List (Nat × α))
    (community : List (String × List (Nat × α))) (k : Nat) :
    List.Sorted (fun x y : String × α × List (Nat × α) => y.2.1 ≤ x.2.1)
      (cfNeighbors s ratings community k) := by
  haveI : IsTotal (String × α × List (Nat × α)) (fun x y => y.2.1 ≤ x.2.1) :=
    ⟨fun a b => le_total b.2.1 a.2.1⟩
  haveI : IsTrans (String × α × List (Nat × α)) (fun x y => y.2.1 ≤ x.2.1) :=
    ⟨fun _ _ _ h1 h2 => le_trans h2 h1⟩
  have hs : List.Sorted (fun x y : String × α × List (Nat × α) => y.2.1 ≤ x.2.1)
      (sortSimsDesc (cfSims s ratings community)) :=
    List.sorted_insertionSort _ _
  exact hs.sublist ((List.take_sublist _ _).trans (List.filter_sublist _))

theorem cfDen_pos_iff (s : α → α) (ratings : List (Nat × α))
    (community : List (String × List (Nat × α))) (k : Nat) (m : Nat) :
    0 < cfDen s ratings community k m ↔
      ∃ nb ∈ cfNeighbors s ratings community k, m ∈ dkeys nb.2.2 := by
  constructor
  · intro h
    by_contra hno
    push_neg at hno
    have hempty : cfRated s ratings community k m = [] := by
      rw [cfRated, List.filter_eq_nil_iff]
      intro nb hnb
      simpa using hno nb hnb
    rw [cfDen, hempty] at h
    simp at h
  · rintro ⟨nb, hnb, hm⟩
    have hmem : nb ∈ cfRated s ratings community k m := by
      rw [cfRated, List.mem_filter]
      exact ⟨hnb, by simpa using hm⟩
    rw [cfDen]
    apply List.sum_pos
    · intro x hx
      obtain ⟨nb1, hnb1, rfl⟩ := List.mem_map.mp hx
      have hpos := cfNeighbors_sim_pos
        ((List.filter_sublist _).mem hnb1)
      exact abs_pos.mpr (ne_of_gt hpos)
    · intro hmap
      rw [List.map_eq_nil_iff] at hmap
      rw [hmap] at hmem
      cases hmem

/-- C4: the Collaborative Predictor keeps as neighbors at most the top `k = 3`
peers by similarity (a descending-sorted sublist of the similarity list) all
of which have strictly positive similarity; an unrated catalog item is in its
output iff some neighbor rated it, with score `num / den` where `num` sums
`similarity * rating` and `den` sums `|similarity|` over the neighbors who
rated it; items no neighbor rated are omitted. -/
theorem C4_theorem (s : α → α) (ratings : List (Nat × α))
    (community : List (String × List (Nat × α))) :
    (cfNeighbors s ratings community 3).length ≤ 3 ∧
      (∀ nb ∈ cfNeighbors s ratings community 3, 0 < nb.2.1) ∧
      (∀ nb ∈ cfNeighbors s ratings community 3,
        nb ∈ cfSims s ratings community) ∧
      List.Sorted (fun x y : String × α × List (Nat × α) => y.2.1 ≤ x.2.1)
        (cfNeighbors s ratings community 3) ∧
      ∀ m v, ((m, v) ∈ predict_cf s ratings community 3 ↔
        m ∈ movieIds ∧ m ∉ dkeys ratings ∧
          (∃ nb ∈ cfNeighbors s ratings community 3, m ∈ dkeys nb.2.2) ∧
          v = cfNum s ratings community 3 m / cfDen s ratings community 3 m) := by
  refine ⟨cfNeighbors_length_le s ratings community 3,
    fun nb hnb => cfNeighbors_sim_pos hnb,
    fun nb hnb => cfNeighbors_mem_sims hnb,
    cfNeighbors_sorted s ratings community 3, ?_⟩
  intro m v
  rw [predict_cf, List.mem_filterMap]
  constructor
  · rintro ⟨m1, hm1, hsome⟩
    by_cases hr : m1 ∈ dkeys ratings
    · rw [if_pos hr] at hsome
      cases hsome
    · rw [if_neg hr] at hsome
      by_cases hd : 0 < cfDen s ratings community 3 m1
      · rw [if_pos hd] at hsome
        obtain ⟨h1, h2⟩ := Prod.mk.injEq .. ▸ Option.some.inj hsome
        subst h1
        subst h2
        exact ⟨hm1, hr, (cfDen_pos_iff s ratings community 3 _).mp hd, rfl⟩
      · rw [if_neg hd] at hsome
        cases hsome
  · rintro ⟨hm, hr, hex, rfl⟩
    refine ⟨m, hm, ?_⟩
    rw [if_neg hr, if_pos ((cfDen_pos_iff s ratings community 3 m).mpr hex)]

/-- Closed instance of `C4_theorem`: rating input `{1: 5}` against the
hardcoded community, with `ratSqrt` (exact at the norms 25 and 100 that
occur), where `u_alex` is the single positive-similarity neighbor. -/
theorem C4_theorem_witness :
    ((2 : Nat), (5 : ℚ)) ∈ predict_cf ratSqrt [(1, 5)] COMMUNITY 3 := by
  have h100 : ratSqrt 100 = 10 := by
    have := ratSqrt_natSq 10
    norm_num at this
    exact this
  have hkua : keyUnion [((1 : Nat), (5 : ℚ))] [(1, 5), (2, 5), (3, 5), (4, 5)] =
      [1, 2, 3, 4] := by decide
  have hna : naVal [((1 : Nat), (5 : ℚ))] [(1, 5), (2, 5), (3, 5), (4, 5)] =
      25 := by
    rw [naVal, hkua]
    norm_num [dget, aget]
  have hnb : nbVal [((1 : Nat), (5 : ℚ))] [(1, 5), (2, 5), (3, 5), (4, 5)] =
      100 := by
    rw [nbVal, hkua]
    norm_num [dget, aget]
  have hdot : dotUnion [((1 : Nat), (5 : ℚ))] [(1, 5), (2, 5), (3, 5), (4, 5)] =
      25 := by
    rw [dotUnion, hkua]
    norm_num [dget, aget]
  have hca : cosine_sim ratSqrt [((1 : Nat), (5 : ℚ))]
      [(1, 5), (2, 5), (3, 5), (4, 5)] = 1 / 2 := by
    rw [cosine_sim, hna, hnb, hdot, ratSqrt_25, h100]
    norm_num
  have hkub : keyUnion [((1 : Nat), (5 : ℚ))] [(5, 5), (3, 4)] = [1, 5, 3] := by
    decide
  have hcb : cosine_sim ratSqrt [((1 : Nat), (5 : ℚ))] [(5, 5), (3, 4)] = 0 := by
    rw [cosine_sim]
    have hd : dotUnion [((1 : Nat), (5 : ℚ))] [(5, 5), (3, 4)] = 0 := by
      rw [dotUnion, hkub]
      norm_num [dget, aget]
    split
    · rfl
    · rw [hd]
      exact zero_div _
  have hnbrs : cfNeighbors ratSqrt [((1 : Nat), (5 : ℚ))] COMMUNITY 3 =
      [("u_alex", 1 / 2, [(1, 5), (2, 5), (3, 5), (4, 5)])] := by
    rw [cfNeighbors, cfSims, COMMUNITY]
    simp only [List.map_cons, List.map_nil, hca, hcb]
    rw [sortSimsDesc]
    norm_num [List.insertionSort, List.orderedInsert, List.filter]
  refine ((C4_theorem ratSqrt [(1, 5)] COMMUNITY).2.2.2.2 2
      (5 : ℚ)).mpr ⟨by decide, by decide, ?_, ?_⟩
  · exact ⟨("u_alex", 1 / 2, [(1, 5), (2, 5), (3, 5), (4, 5)]),
      by rw [hnbrs]; exact List.mem_singleton_self _, by decide⟩
  · rw [cfNum, cfDen, cfRated, hnbrs]
    norm_num [dget, aget, List.filter, dkeys, abs_of_pos]

/-! ## Claim C8 — no self-recommendation -/

theorem mem_predict_cf_imp {s : α → α} {ratings : List (Nat × α)}
    {community : List (String × List (Nat × α))} {k : Nat} {m : Nat} {v : α}
    (h : (m, v) ∈ predict_cf s ratings community k) :
    m ∈ movieIds ∧ m ∉ dkeys ratings := by
  rw [predict_cf, List.mem_filterMap] at h
  obtain ⟨m1, hm1, hsome⟩ := h
  by_cases hr : m1 ∈ dkeys ratings
  · rw [if_pos hr] at hsome
    cases hsome
  · rw [if_neg hr] at hsome
    by_cases hd : 0 < cfDen s ratings community k m1
    · rw [if_pos hd] at hsome
      obtain ⟨h1, h2⟩ := Prod.mk.injEq .. ▸ Option.some.inj hsome
      subst h1
      exact ⟨hm1, hr⟩
    · rw [if_neg hd] at hsome
      cases hsome

theorem mem_predict_cb_imp {s : α → α}
    {tfidf : List (Nat × List (String × α))} {profile : List (String × α)}
    {ratings : List (Nat × α)} {m : Nat} {v : α}
    (h : (m, v) ∈ predict_cb s tfidf profile ratings) :
    m ∈ movieIds ∧ m ∉ dkeys ratings := by
  rw [predict_cb, List.mem_filterMap] at h
  obtain ⟨mv, hmv, hsome⟩ := h
  by_cases hr : mv.id ∈ dkeys ratings
  · rw [if_pos hr] at hsome
    cases hsome
  · rw [if_neg hr] at hsome
    obtain ⟨h1, h2⟩ := Prod.mk.injEq .. ▸ Option.some.inj hsome
    subst h1
    exact ⟨List.mem_map.mpr ⟨mv, hmv, rfl⟩, hr⟩

theorem dkeys_boost_iff (h : List (Nat × α)) (p : String) (m : Nat) :
    m ∈ dkeys (apply_prompt_boost h p) ↔ m ∈ dkeys h := by
  rw [apply_prompt_boost]
  split
  · exact Iff.rfl
  · rw [dkeys, dkeys, sortScoresDesc,
      ((List.perm_insertionSort _ _).map Prod.fst).mem_iff, List.map_map]
    exact Iff.rfl

theorem not_mem_dkeys_pipelineHybrid {s lg : α → α} {ratings : List (Nat × α)}
    {m : Nat} (hm : m ∈ dkeys ratings) :
    m ∉ dkeys (pipelineHybrid s lg ratings) := by
  intro hmem
  obtain ⟨v, hv⟩ := mem_dkeys_iff.mp hmem
  rw [pipelineHybrid] at hv
  obtain ⟨-, hne, -⟩ := (mem_hybrid_iff _ _ _ _ _).mp hv
  have hcf : dget (predict_cf s ratings COMMUNITY) m = 0 := by
    apply dget_eq_zero_of_not_mem
    intro hk
    obtain ⟨v1, hv1⟩ := mem_dkeys_iff.mp hk
    exact (mem_predict_cf_imp hv1).2 hm
  have hcb : dget (predict_cb s (build_tfidf lg MOVIES)
      (build_user_profile s (build_tfidf lg MOVIES) ratings) ratings) m = 0 := by
    apply dget_eq_zero_of_not_mem
    intro hk
    obtain ⟨v1, hv1⟩ := mem_dkeys_iff.mp hk
    exact (mem_predict_cb_imp hv1).2 hm
  rcases hne with hne | hne
  · exact hne hcf
  · exact hne hcb

/-- C8: an item present in the Rating Input never appears as a key of the
Collaborative Predictor's output, the Content Predictor's output, the
pipeline's blended map, the Prompt Booster's final map, or the rendered
recommendation rows. -/
theorem C8_theorem (s lg : α → α) (ratings : List (Nat × α))
    (community : List (String × List (Nat × α))) (k : Nat)
    (tfidf : List (Nat × List (String × α))) (profile : List (String × α))
    (prompt : String) (m : Nat) (hm : m ∈ dkeys ratings) :
    m ∉ dkeys (predict_cf s ratings community k) ∧
      m ∉ dkeys (predict_cb s tfidf profile ratings) ∧
      m ∉ dkeys (pipelineHybrid s lg ratings) ∧
      m ∉ dkeys (apply_prompt_boost (pipelineHybrid s lg ratings) prompt) ∧
      ∀ r ∈ pipelineRecs s lg ratings prompt, r.1 ≠ m := by
  refine ⟨?_, ?_, not_mem_dkeys_pipelineHybrid hm, ?_, ?_⟩
  · intro hk
    obtain ⟨v, hv⟩ := mem_dkeys_iff.mp hk
    exact (mem_predict_cf_imp hv).2 hm
  · intro hk
    obtain ⟨v, hv⟩ := mem_dkeys_iff.mp hk
    exact (mem_predict_cb_imp hv).2 hm
  · intro hk
    exact not_mem_dkeys_pipelineHybrid hm ((dkeys_boost_iff _ _ _).mp hk)
  · intro r hr
    rw [pipelineRecs, List.mem_map] at hr
    obtain ⟨p, hp, rfl⟩ := hr
    intro hpm
    have hk : p.1 ∈ dkeys (apply_prompt_boost (pipelineHybrid s lg ratings)
        prompt) := by
      rw [dkeys, List.mem_map]
      exact ⟨p, (List.take_sublist _ _).mem hp, rfl⟩
    rw [hpm, dkeys_boost_iff] at hk
    exact not_mem_dkeys_pipelineHybrid hm hk

/-- Closed instance of `C8_theorem`: the rated movie 1 (Inception, rated 5)
appears in none of the pipeline score maps. -/
theorem C8_theorem_witness :
    (1 : Nat) ∉ dkeys (predict_cf ratSqrt [(1, (5 : ℚ))] COMMUNITY 3) ∧
      (1 : Nat) ∉ dkeys (predict_cb ratSqrt (build_tfidf zeroLog MOVIES)
        [] [(1, (5 : ℚ))]) ∧
      (1 : Nat) ∉ dkeys (pipelineHybrid ratSqrt zeroLog [(1, (5 : ℚ))]) ∧
      (1 : Nat) ∉ dkeys (apply_prompt_boost
        (pipelineHybrid ratSqrt zeroLog [(1, (5 : ℚ))]) "sci-fi") ∧
      ∀ r ∈ pipelineRecs ratSqrt zeroLog [(1, (5 : ℚ))] "sci-fi", r.1 ≠ 1 :=
  C8_theorem ratSqrt zeroLog [(1, (5 : ℚ))] COMMUNITY 3
    (build_tfidf zeroLog MOVIES) [] "sci-fi" 1 (by decide)

/-! ## Claim C7 — smoothed idf is positive, TF-IDF weights non-negative -/

theorem dfCount_le_length (movies : List Movie) (t : String) :
    dfCount movies t ≤ movies.length := by
  rw [dfCount]
  exact List.length_filter_le _ _

theorem idfVal_pos {lg : α → α} (movies : List Movie)
    (hlog : ∀ x : α, 1 ≤ x → 0 ≤ lg x) (t : String) :
    0 < idfVal lg movies t := by
  rw [idfVal]
  have hden : (0 : α) < (dfCount movies t : α) + 1 := by positivity
  have harg : (1 : α) ≤ ((movies.length : α) + 1) / ((dfCount movies t : α) + 1) := by
    rw [one_le_div hden]
    have := dfCount_le_length movies t
    have hc : (dfCount movies t : α) ≤ (movies.length : α) := Nat.cast_le.mpr this
    linarith
  have := hlog _ harg
  linarith

theorem idfGet_nonneg {lg : α → α} (movies : List Movie)
    (hlog : ∀ x : α, 1 ≤ x → 0 ≤ lg x) (t : String) :
    0 ≤ idfGet lg movies t := by
  rw [idfGet]
  split
  · exact le_of_lt (idfVal_pos movies hlog t)
  · exact le_refl 0

/-- C7: for every catalog, the smoothed idf
`ln((N + 1) / (df(t) + 1)) + 1` is strictly positive for every term (the
argument of the logarithm is always ≥ 1 since `df(t) ≤ N`), and consequently
every TF-IDF weight `tf * idf` in every item's TermVector is non-negative.
The hypothesis on `lg` — non-negative on `[1, ∞)` — holds for the real
natural logarithm. -/
theorem C7_theorem (lg : α → α) (movies : List Movie)
    (hlog : ∀ x : α, 1 ≤ x → 0 ≤ lg x) :
    (∀ t : String, 0 < idfVal lg movies t) ∧
      ∀ p ∈ build_tfidf lg movies, ∀ q ∈ p.2, 0 ≤ q.2 := by
  refine ⟨idfVal_pos movies hlog, ?_⟩
  intro p hp q hq
  rw [build_tfidf, List.mem_map] at hp
  obtain ⟨m, -, rfl⟩ := hp
  rw [tfidfVecOf, List.mem_map] at hq
  obtain ⟨t, -, rfl⟩ := hq
  exact mul_nonneg (Nat.cast_nonneg _) (idfGet_nonneg movies hlog t)

/-- Closed instance of `C7_theorem` on the hardcoded catalog, with the
everywhere-zero stand-in for the logarithm (which is non-negative on
`[1, ∞)`). -/
theorem C7_theorem_witness :
    (∀ t : String, 0 < idfVal zeroLog MOVIES t) ∧
      ∀ p ∈ build_tfidf zeroLog MOVIES, ∀ q ∈ p.2, 0 ≤ q.2 :=
  C7_theorem zeroLog MOVIES (fun _ _ => le_refl 0)

/-! ## Claim C6 — the Profile Builder and the empty-profile case -/

theorem naVal_nil_left (b : List (κ × α)) :
    naVal ([] : List (κ × α)) b = 0 := by
  rw [naVal]
  exact List.sum_eq_zero (fun x hx => by
    obtain ⟨k, -, rfl⟩ := List.mem_map.mp hx
    simp [dget, aget])

theorem cosine_sim_nil_left (s : α → α) (b : List (κ × α)) :
    cosine_sim s ([] : List (κ × α)) b = 0 := by
  rw [cosine_sim, if_pos (Or.inl (naVal_nil_left b))]

theorem dget_keyed (ks : List κ) (f : κ → α) (t : κ) :
    dget (ks.map (fun k => (k, f k))) t = if t ∈ ks then f t else 0 := by
  induction ks with
  | nil => simp [dget, aget]
  | cons k rest ih =>
      simp only [List.map_cons]
      by_cases h : t = k
      · subst h
        simp [dget, aget, List.mem_cons]
      · have hstep : dget ((k, f k) :: List.map (fun k => (k, f k)) rest) t =
            dget (List.map (fun k => (k, f k)) rest) t := by
          simp [dget, aget, h]
        rw [hstep, ih]
        simp [List.mem_cons, h]

theorem accOf_eq_zero_of_not_mem {tfidf : List (Nat × List (String × α))}
    {liked : List Nat} {t : String} (h : t ∉ profTerms tfidf liked) :
    accOf tfidf liked t = 0 := by
  rw [profTerms, List.mem_dedup, List.mem_flatten] at h
  push_neg at h
  rw [accOf]
  apply List.sum_eq_zero
  intro x hx
  obtain ⟨mid, hmid, rfl⟩ := List.mem_map.mp hx
  apply dget_eq_zero_of_not_mem
  intro hk
  exact h _ (List.mem_map.mpr ⟨mid, hmid, rfl⟩) hk

theorem dget_profile_eq (s : α → α) (tfidf : List (Nat × List (String × α)))
    (ratings : List (Nat × α)) (hne : likedOf ratings ≠ []) (t : String) :
    dget (build_user_profile s tfidf ratings) t =
      accOf tfidf (likedOf ratings) t /
        (if profileNorm s tfidf (likedOf ratings) = 0 then 1
         else profileNorm s tfidf (likedOf ratings)) := by
  have hbup : build_user_profile s tfidf ratings =
      (profTerms tfidf (likedOf ratings)).map
        (fun t => (t, accOf tfidf (likedOf ratings) t /
          (if profileNorm s tfidf (likedOf ratings) = 0 then 1
           else profileNorm s tfidf (likedOf ratings)))) := by
    simp only [build_user_profile]
    rw [if_neg hne]
  rw [hbup, dget_keyed]
  split
  · rfl
  · rename_i hnot
    rw [accOf_eq_zero_of_not_mem hnot, zero_div]

/-- C6: if no rated item scores ≥ 4 the Profile Builder returns the empty
TermVector and every score the Content Predictor then produces is exactly 0;
otherwise the profile maps every term to the term-wise sum of the liked
items' TF-IDF weights divided by that sum's Euclidean norm, a zero norm being
replaced by 1 (Python's `or 1`). -/
theorem C6_theorem (s : α → α) (tfidf : List (Nat × List (String × α)))
    (ratings : List (Nat × α)) :
    ((∀ p ∈ ratings, p.2 < 4) →
      build_user_profile s tfidf ratings = [] ∧
        ∀ q ∈ predict_cb s tfidf (build_user_profile s tfidf ratings) ratings,
          q.2 = 0) ∧
    (likedOf ratings ≠ [] →
      ∀ t : String, dget (build_user_profile s tfidf ratings) t =
        accOf tfidf (likedOf ratings) t /
          (if profileNorm s tfidf (likedOf ratings) = 0 then 1
           else profileNorm s tfidf (likedOf ratings))) := by
  constructor
  · intro hlt
    have hliked : likedOf ratings = [] := by
      rw [likedOf, List.filter_eq_nil_iff.mpr]
      · rfl
      · intro p hp
        simp only [decide_eq_true_eq]
        exact not_le.mpr (hlt p hp)
    have hbup : build_user_profile s tfidf ratings = [] := by
      simp only [build_user_profile, hliked]
      simp
    refine ⟨hbup, ?_⟩
    intro q hq
    rw [hbup, predict_cb, List.mem_filterMap] at hq
    obtain ⟨m, -, hsome⟩ := hq
    by_cases hr : m.id ∈ dkeys ratings
    · rw [if_pos hr] at hsome
      cases hsome
    · rw [if_neg hr] at hsome
      obtain ⟨h1, h2⟩ := Prod.mk.injEq .. ▸ Option.some.inj hsome
      rw [← h2, cosine_sim_nil_left, zero_mul]
  · intro hne t
    exact dget_profile_eq s tfidf ratings hne t

/-- Closed instance of the non-empty branch of `C6_theorem`: the rating input
`{1: 5}` clears the liked threshold, so the profile is the normalized
TF-IDF sum. -/
theorem C6_theorem_witness :
    ∀ t : String,
      dget (build_user_profile ratSqrt (build_tfidf zeroLog MOVIES)
          [(1, (5 : ℚ))]) t =
        accOf (build_tfidf zeroLog MOVIES) (likedOf [(1, (5 : ℚ))]) t /
          (if profileNorm ratSqrt (build_tfidf zeroLog MOVIES)
              (likedOf [(1, (5 : ℚ))]) = 0 then 1
           else profileNorm ratSqrt (build_tfidf zeroLog MOVIES)
              (likedOf [(1, (5 : ℚ))])) :=
  (C6_theorem ratSqrt (build_tfidf zeroLog MOVIES) [(1, (5 : ℚ))]).2
    (by norm_num [likedOf, List.filter])

/-! ## Claim C9 — end-to-end scenario B (rating {1: 5}, query "sci-fi") -/

theorem sum_map_pos_of_mem {ks : List κ} {f : κ → α}
    (h0 : ∀ k ∈ ks, 0 ≤ f k) {k0 : κ} (hk : k0 ∈ ks) (hp : 0 < f k0) :
    0 < (ks.map f).sum := by
  induction ks with
  | nil => cases hk
  | cons k rest ih =>
      rw [List.map_cons, List.sum_cons]
      rcases List.mem_cons.mp hk with h | h
      · subst h
        have hrest : 0 ≤ (rest.map f).sum :=
          List.sum_nonneg (by
            intro x hx
            obtain ⟨k1, hk1, rfl⟩ := List.mem_map.mp hx
            exact h0 k1 (List.mem_cons_of_mem _ hk1))
        linarith
      · have hhead : 0 ≤ f k := h0 k (List.mem_cons_self _ _)
        have := ih (fun k1 hk1 => h0 k1 (List.mem_cons_of_mem _ hk1)) h
        linarith

theorem dkeys_keyed (ks : List κ) (f : κ → α) :
    dkeys (ks.map (fun k => (k, f k))) = ks := by
  rw [dkeys, List.map_map]
  exact List.map_id _

theorem dget_tfidfVecOf {lg : α → α} (movies : List Movie) (m : Movie)
    (t : String) :
    dget (tfidfVecOf lg movies m) t =
      if t ∈ (tokensOf m).dedup then
        ((tokensOf m).count t : α) * idfGet lg movies t
      else 0 := by
  rw [tfidfVecOf, dget_keyed]

theorem dfCount_pos_of_mem {movies : List Movie} {m : Movie} {t : String}
    (hm : m ∈ movies) (ht : t ∈ tokensOf m) : 0 < dfCount movies t := by
  rw [dfCount, List.length_pos]
  intro hnil
  have : m ∈ movies.filter (fun m => decide (t ∈ tokensOf m)) :=
    List.mem_filter.mpr ⟨hm, by simpa using ht⟩
  rw [hnil] at this
  cases this

theorem dget_tfidfVecOf_pos {lg : α → α} {movies : List Movie} {m : Movie}
    {t : String} (hlog : ∀ x : α, 1 ≤ x → 0 ≤ lg x)
    (hm : m ∈ movies) (ht : t ∈ tokensOf m) :
    0 < dget (tfidfVecOf lg movies m) t := by
  rw [dget_tfidfVecOf, if_pos (List.mem_dedup.mpr ht)]
  have hc : 0 < (tokensOf m).count t := List.count_pos_iff.mpr ht
  have hc1 : (1 : α) ≤ ((tokensOf m).count t : α) := by
    exact_mod_cast Nat.one_le_iff_ne_zero.mpr (Nat.pos_iff_ne_zero.mp hc)
  have hidf : 0 < idfGet lg movies t := by
    rw [idfGet, if_pos (dfCount_pos_of_mem hm ht)]
    exact idfVal_pos movies hlog t
  calc (0 : α) < 1 * idfGet lg movies t := by rwa [one_mul]
    _ ≤ ((tokensOf m).count t : α) * idfGet lg movies t :=
        mul_le_mul_of_nonneg_right hc1 (le_of_lt hidf)

theorem dget_tfidfVecOf_nonneg {lg : α → α} {movies : List Movie} {m : Movie}
    (hlog : ∀ x : α, 1 ≤ x → 0 ≤ lg x) (t : String) :
    0 ≤ dget (tfidfVecOf lg movies m) t := by
  rw [dget_tfidfVecOf]
  split
  · exact mul_nonneg (Nat.cast_nonneg _) (idfGet_nonneg movies hlog t)
  · exact le_refl 0

theorem ratSqrt_pos {x : ℚ} (hx : 0 < x) : 0 < ratSqrt x := by
  rw [ratSqrt]
  have h1 : 0 < x.num := Rat.num_pos.mpr hx
  have h2 : 0 < x.num.toNat := by omega
  exact_mod_cast Nat.sqrt_pos.mpr h2

theorem c9_sim_alex (s : α → α) :
    cosine_sim s [((1 : Nat), (5 : α))] [(1, 5), (2, 5), (3, 5), (4, 5)] =
      25 / (s 25 * s 100) := by
  have hku : keyUnion [((1 : Nat), (5 : α))] [(1, 5), (2, 5), (3, 5), (4, 5)] =
      [1, 2, 3, 4] := by
    simp [keyUnion, dkeys, List.dedup_cons_of_mem, List.dedup_cons_of_not_mem]
  have hna : naVal [((1 : Nat), (5 : α))] [(1, 5), (2, 5), (3, 5), (4, 5)] =
      25 := by
    rw [naVal, hku]
    norm_num [dget, aget]
  have hnb : nbVal [((1 : Nat), (5 : α))] [(1, 5), (2, 5), (3, 5), (4, 5)] =
      100 := by
    rw [nbVal, hku]
    norm_num [dget, aget]
  have hdot : dotUnion [((1 : Nat), (5 : α))] [(1, 5), (2, 5), (3, 5), (4, 5)] =
      25 := by
    rw [dotUnion, hku]
    norm_num [dget, aget]
  rw [cosine_sim, hna, hnb, hdot, if_neg (by norm_num)]

theorem c9_sim_alex_pos (s : α → α) (hs : ∀ x : α, 0 < x → 0 < s x) :
    (0 : α) < 25 / (s 25 * s 100) :=
  div_pos (by norm_num) (mul_pos (hs 25 (by norm_num)) (hs 100 (by norm_num)))

theorem c9_sim_bianca (s : α → α) :
    cosine_sim s [((1 : Nat), (5 : α))] [(5, 5), (3, 4)] = 0 := by
  have hku : keyUnion [((1 : Nat), (5 : α))] [(5, 5), (3, 4)] = [1, 5, 3] := by
    simp [keyUnion, dkeys, List.dedup_cons_of_mem, List.dedup_cons_of_not_mem]
  have hdot : dotUnion [((1 : Nat), (5 : α))] [(5, 5), (3, 4)] = 0 := by
    rw [dotUnion, hku]
    norm_num [dget, aget]
  rw [cosine_sim]
  split
  · rfl
  · rw [hdot]
    exact zero_div _

theorem c9_neighbors (s : α → α) (hs : ∀ x : α, 0 < x → 0 < s x) :
    cfNeighbors s [((1 : Nat), (5 : α))] COMMUNITY 3 =
      [("u_alex", 25 / (s 25 * s 100), [(1, 5), (2, 5), (3, 5), (4, 5)])] := by
  have hpos := c9_sim_alex_pos s hs
  have hsims : cfSims s [((1 : Nat), (5 : α))] COMMUNITY =
      [("u_alex", 25 / (s 25 * s 100), [(1, 5), (2, 5), (3, 5), (4, 5)]),
       ("u_bianca", 0, [(5, 5), (3, 4)])] := by
    rw [cfSims, COMMUNITY]
    simp [c9_sim_alex, c9_sim_bianca]
  rw [cfNeighbors, hsims]
  have hfilter : List.filter (fun x => decide (0 < x.2.1))
      [("u_alex", 25 / (s 25 * s 100), [((1 : Nat), (5 : α)), (2, 5), (3, 5), (4, 5)]),
       ("u_bianca", 0, [(5, 5), (3, 4)])] =
      [("u_alex", 25 / (s 25 * s 100), [(1, 5), (2, 5), (3, 5), (4, 5)])] := by
    simp only [List.filter_cons, List.filter_nil]
    rw [if_pos (by simpa using hpos), if_neg (by simp)]
  have hperm2 := (List.perm_insertionSort
      (fun x y : String × α × List (Nat × α) => y.2.1 ≤ x.2.1)
      [("u_alex", 25 / (s 25 * s 100), [((1 : Nat), (5 : α)), (2, 5), (3, 5), (4, 5)]),
       ("u_bianca", 0, [(5, 5), (3, 4)])]).filter
      (fun x => decide (0 < x.2.1))
  rw [hfilter] at hperm2
  rw [sortSimsDesc]
  rw [List.perm_singleton.mp hperm2]
  rfl

theorem c9_cf (s : α → α) (hs : ∀ x : α, 0 < x → 0 < s x) :
    predict_cf s [((1 : Nat), (5 : α))] COMMUNITY 3 =
      [(2, 5), (3, 5), (4, 5)] := by
  have hpos := c9_sim_alex_pos s hs
  have hnbrs := c9_neighbors s hs
  have hr2 : cfRated s [((1 : Nat), (5 : α))] COMMUNITY 3 2 =
      [("u_alex", 25 / (s 25 * s 100), [(1, 5), (2, 5), (3, 5), (4, 5)])] := by
    rw [cfRated, hnbrs]
    simp [dkeys]
  have hr3 : cfRated s [((1 : Nat), (5 : α))] COMMUNITY 3 3 =
      [("u_alex", 25 / (s 25 * s 100), [(1, 5), (2, 5), (3, 5), (4, 5)])] := by
    rw [cfRated, hnbrs]
    simp [dkeys]
  have hr4 : cfRated s [((1 : Nat), (5 : α))] COMMUNITY 3 4 =
      [("u_alex", 25 / (s 25 * s 100), [(1, 5), (2, 5), (3, 5), (4, 5)])] := by
    rw [cfRated, hnbrs]
    simp [dkeys]
  have hr5 : cfRated s [((1 : Nat), (5 : α))] COMMUNITY 3 5 = [] := by
    rw [cfRated, hnbrs]
    simp [dkeys]
  have hden2 : cfDen s [((1 : Nat), (5 : α))] COMMUNITY 3 2 =
      25 / (s 25 * s 100) := by
    rw [cfDen, hr2]
    simp [abs_of_pos hpos]
  have hden3 : cfDen s [((1 : Nat), (5 : α))] COMMUNITY 3 3 =
      25 / (s 25 * s 100) := by
    rw [cfDen, hr3]
    simp [abs_of_pos hpos]
  have hden4 : cfDen s [((1 : Nat), (5 : α))] COMMUNITY 3 4 =
      25 / (s 25 * s 100) := by
    rw [cfDen, hr4]
    simp [abs_of_pos hpos]
  have hden5 : cfDen s [((1 : Nat), (5 : α))] COMMUNITY 3 5 = 0 := by
    rw [cfDen, hr5]
    simp
  have hnum2 : cfNum s [((1 : Nat), (5 : α))] COMMUNITY 3 2 =
      25 / (s 25 * s 100) * 5 := by
    rw [cfNum, hr2]
    simp [dget, aget]
  have hnum3 : cfNum s [((1 : Nat), (5 : α))] COMMUNITY 3 3 =
      25 / (s 25 * s 100) * 5 := by
    rw [cfNum, hr3]
    simp [dget, aget]
  have hnum4 : cfNum s [((1 : Nat), (5 : α))] COMMUNITY 3 4 =
      25 / (s 25 * s 100) * 5 := by
    rw [cfNum, hr4]
    simp [dget, aget]
  have hmid : movieIds = [1, 2, 3, 4, 5] := by decide
  rw [predict_cf, hmid]
  simp only [List.filterMap_cons, List.filterMap_nil, hden2, hden3, hden4,
    hden5, hnum2, hnum3, hnum4, dkeys, List.map_cons, List.map_nil,
    List.mem_cons, List.not_mem_nil, or_false]
  have hprod : (0 : α) < s 25 * s 100 :=
    mul_pos (hs 25 (by norm_num)) (hs 100 (by norm_num))
  norm_num [hprod, mul_div_cancel_left₀ (5 : α) (ne_of_gt hpos)]

theorem c9_liked : likedOf [((1 : Nat), (5 : α))] = [1] := by
  have hp : (decide ((4 : α) ≤ 5)) = true := by
    simp only [decide_eq_true_eq]
    norm_num
  rw [likedOf]
  simp only [List.filter_cons, List.filter_nil, hp, if_pos]
  rfl

theorem c9_cb_form (s : α → α) (tfidf : List (Nat × List (String × α)))
    (profile : List (String × α)) :
    predict_cb s tfidf profile [(1, (5 : α))] =
      [(2, cosine_sim s profile (aget [] tfidf 2) * 5),
       (3, cosine_sim s profile (aget [] tfidf 3) * 5),
       (4, cosine_sim s profile (aget [] tfidf 4) * 5),
       (5, cosine_sim s profile (aget [] tfidf 5) * 5)] := by
  rw [predict_cb]
  simp [MOVIES, dkeys]

theorem c9_tfidf_at_1 (lg : α → α) :
    aget [] (build_tfidf lg MOVIES) 1 = tfidfVecOf lg MOVIES (movieById 1) :=
  rfl

theorem c9_tfidf_at_5 (lg : α → α) :
    aget [] (build_tfidf lg MOVIES) 5 = tfidfVecOf lg MOVIES (movieById 5) :=
  rfl

theorem c9_acc (lg : α → α) (t : String) :
    accOf (build_tfidf lg MOVIES) [1] t =
      dget (tfidfVecOf lg MOVIES (movieById 1)) t := by
  rw [accOf, List.map_cons, List.map_nil, List.sum_cons, List.sum_nil,
    add_zero, c9_tfidf_at_1]

theorem c9_thriller_profTerms (lg : α → α) :
    "thriller" ∈ profTerms (build_tfidf lg MOVIES) [1] := by
  rw [profTerms, List.mem_dedup, List.mem_flatten]
  refine ⟨dkeys (aget [] (build_tfidf lg MOVIES) 1), ?_, ?_⟩
  · simp
  · rw [c9_tfidf_at_1, tfidfVecOf, dkeys_keyed, List.mem_dedup]
    decide

theorem c9_profileNorm_pos (s lg : α → α) (hs : ∀ x : α, 0 < x → 0 < s x)
    (hlog : ∀ x : α, 1 ≤ x → 0 ≤ lg x) :
    0 < profileNorm s (build_tfidf lg MOVIES) [1] := by
  rw [profileNorm]
  apply hs
  apply sum_map_pos_of_mem (fun k _ => mul_self_nonneg _)
    (c9_thriller_profTerms lg)
  have hpos : 0 < accOf (build_tfidf lg MOVIES) [1] "thriller" := by
    rw [c9_acc]
    exact dget_tfidfVecOf_pos hlog (by decide) (by decide)
  exact mul_pos hpos hpos

theorem c9_prof_dget (s lg : α → α) (hs : ∀ x : α, 0 < x → 0 < s x)
    (hlog : ∀ x : α, 1 ≤ x → 0 ≤ lg x) (t : String) :
    dget (build_user_profile s (build_tfidf lg MOVIES) [(1, (5 : α))]) t =
      accOf (build_tfidf lg MOVIES) [1] t /
        profileNorm s (build_tfidf lg MOVIES) [1] := by
  have hne : likedOf [((1 : Nat), (5 : α))] ≠ [] := by
    rw [c9_liked]
    simp
  rw [dget_profile_eq _ _ _ hne t, c9_liked,
    if_neg (ne_of_gt (c9_profileNorm_pos s lg hs hlog))]

theorem c9_prof_nonneg (s lg : α → α) (hs : ∀ x : α, 0 < x → 0 < s x)
    (hlog : ∀ x : α, 1 ≤ x → 0 ≤ lg x) (t : String) :
    0 ≤ dget (build_user_profile s (build_tfidf lg MOVIES) [(1, (5 : α))]) t := by
  rw [c9_prof_dget s lg hs hlog t]
  refine div_nonneg ?_ (le_of_lt (c9_profileNorm_pos s lg hs hlog))
  rw [c9_acc]
  exact dget_tfidfVecOf_nonneg hlog t

theorem c9_prof_thriller_pos (s lg : α → α) (hs : ∀ x : α, 0 < x → 0 < s x)
    (hlog : ∀ x : α, 1 ≤ x → 0 ≤ lg x) :
    0 < dget (build_user_profile s (build_tfidf lg MOVIES) [(1, (5 : α))])
      "thriller" := by
  rw [c9_prof_dget s lg hs hlog]
  refine div_pos ?_ (c9_profileNorm_pos s lg hs hlog)
  rw [c9_acc]
  exact dget_tfidfVecOf_pos hlog (by decide) (by decide)

theorem c9_vec5_thriller_pos (lg : α → α)
    (hlog : ∀ x : α, 1 ≤ x → 0 ≤ lg x) :
    0 < dget (aget [] (build_tfidf lg MOVIES) 5) "thriller" := by
  rw [c9_tfidf_at_5]
  exact dget_tfidfVecOf_pos hlog (by decide) (by decide)

theorem c9_thriller_keyUnion (s lg : α → α) :
    "thriller" ∈ keyUnion
      (build_user_profile s (build_tfidf lg MOVIES) [(1, (5 : α))])
      (aget [] (build_tfidf lg MOVIES) 5) := by
  rw [keyUnion, List.mem_dedup, List.mem_append]
  right
  rw [c9_tfidf_at_5, tfidfVecOf, dkeys_keyed, List.mem_dedup]
  decide

theorem c9_cos5_pos (s lg : α → α) (hs : ∀ x : α, 0 < x → 0 < s x)
    (hlog : ∀ x : α, 1 ≤ x → 0 ≤ lg x) :
    0 < cosine_sim s
      (build_user_profile s (build_tfidf lg MOVIES) [(1, (5 : α))])
      (aget [] (build_tfidf lg MOVIES) 5) := by
  have hku := c9_thriller_keyUnion s lg
  have hPthr := c9_prof_thriller_pos s lg hs hlog
  have hVthr := c9_vec5_thriller_pos lg hlog
  have hna : 0 < naVal
      (build_user_profile s (build_tfidf lg MOVIES) [(1, (5 : α))])
      (aget [] (build_tfidf lg MOVIES) 5) := by
    rw [naVal]
    exact sum_map_pos_of_mem (fun k _ => mul_self_nonneg _) hku
      (mul_pos hPthr hPthr)
  have hnb : 0 < nbVal
      (build_user_profile s (build_tfidf lg MOVIES) [(1, (5 : α))])
      (aget [] (build_tfidf lg MOVIES) 5) := by
    rw [nbVal]
    exact sum_map_pos_of_mem (fun k _ => mul_self_nonneg _) hku
      (mul_pos hVthr hVthr)
  have hdot : 0 < dotUnion
      (build_user_profile s (build_tfidf lg MOVIES) [(1, (5 : α))])
      (aget [] (build_tfidf lg MOVIES) 5) := by
    rw [dotUnion]
    refine sum_map_pos_of_mem ?_ hku (mul_pos hPthr hVthr)
    intro k _
    refine mul_nonneg (c9_prof_nonneg s lg hs hlog k) ?_
    rw [c9_tfidf_at_5]
    exact dget_tfidfVecOf_nonneg hlog k
  rw [cosine_sim, if_neg (not_or.mpr ⟨ne_of_gt hna, ne_of_gt hnb⟩)]
  exact div_pos hdot (mul_pos (hs _ hna) (hs _ hnb))

theorem c9_boostAmt (mid : Nat) (hmid : mid ∈ movieIds) :
    boostAmt (α := α) "sci-fi" mid =
        (if "Sci-Fi" ∈ (movieById mid).genres then (2 : α) else 0) ∧
      boostFlag "sci-fi" mid = decide ("Sci-Fi" ∈ (movieById mid).genres) := by
  rw [show movieIds = [1, 2, 3, 4, 5] from by decide] at hmid
  fin_cases hmid
  · exact ⟨by rw [boostAmt, if_pos (by decide), if_pos (by decide)], by decide⟩
  · exact ⟨by rw [boostAmt, if_neg (by decide), if_neg (by decide)], by decide⟩
  · exact ⟨by rw [boostAmt, if_pos (by decide), if_pos (by decide)], by decide⟩
  · exact ⟨by rw [boostAmt, if_pos (by decide), if_pos (by decide)], by decide⟩
  · exact ⟨by rw [boostAmt, if_neg (by decide), if_neg (by decide)], by decide⟩

theorem c9_hybrid_len (s lg : α → α) :
    (pipelineHybrid s lg [(1, (5 : α))]).length ≤ 5 := by
  simp only [pipelineHybrid, hybrid_scores, sortScoresDesc]
  rw [(List.perm_insertionSort _ _).length_eq, hybridPre]
  calc (movieIds.filterMap _).length ≤ movieIds.length :=
        List.length_filterMap_le _ _
    _ = 5 := by decide

theorem c9_boosted_take (s lg : α → α) :
    (apply_prompt_boost (pipelineHybrid s lg [(1, (5 : α))]) "sci-fi").take 5 =
      apply_prompt_boost (pipelineHybrid s lg [(1, (5 : α))]) "sci-fi" := by
  apply List.take_of_length_le
  rw [apply_prompt_boost, if_neg (by decide : ("sci-fi" : String) ≠ ""),
    sortScoresDesc, (List.perm_insertionSort _ _).length_eq, List.length_map]
  exact c9_hybrid_len s lg

/-- C9: end-to-end scenario B.  With rating input `{1 (Inception): 5}` and
query `"sci-fi"`, the blended map holds exactly the items 2, 3, 4, 5, the
rendered rows cover exactly those items, and every row's final score is its
blended score plus exactly 2.0 when the item's genre list contains "Sci-Fi"
and plus 0 otherwise, with the caller-computed boosted flag true exactly for
the Sci-Fi items.  `s` and `lg` abstract `math.sqrt` and `math.log`, assumed
positive on positives resp. non-negative on `[1, ∞)`, as the real functions
are. -/
theorem C9_theorem (s lg : α → α) (hs : ∀ x : α, 0 < x → 0 < s x)
    (hlog : ∀ x : α, 1 ≤ x → 0 ≤ lg x) :
    (∀ m : Nat,
      m ∈ dkeys (pipelineHybrid s lg [(1, 5)]) ↔ m ∈ [2, 3, 4, 5]) ∧
    (∀ m : Nat,
      m ∈ (pipelineRecs s lg [(1, 5)] "sci-fi").map (fun r => r.1) ↔
        m ∈ [2, 3, 4, 5]) ∧
    (∀ r ∈ pipelineRecs s lg [(1, 5)] "sci-fi",
      ∃ v : α, (r.1, v) ∈ pipelineHybrid s lg [(1, 5)] ∧
        r.2.1 = v + (if "Sci-Fi" ∈ (movieById r.1).genres then 2 else 0) ∧
        r.2.2 = decide ("Sci-Fi" ∈ (movieById r.1).genres)) := by
  have hcf := c9_cf s hs
  have hpipe : pipelineHybrid s lg [(1, (5 : α))] =
      hybrid_scores (predict_cf s [(1, 5)] COMMUNITY)
        (predict_cb s (build_tfidf lg MOVIES)
          (build_user_profile s (build_tfidf lg MOVIES) [(1, 5)]) [(1, 5)])
        (6 / 10) := by
    simp only [pipelineHybrid]
  have hdcf1 : dget (predict_cf s [((1 : Nat), (5 : α))] COMMUNITY 3) 1 = 0 := by
    rw [hcf]
    simp [dget, aget]
  have hdcf2 : dget (predict_cf s [((1 : Nat), (5 : α))] COMMUNITY 3) 2 = 5 := by
    rw [hcf]
    simp [dget, aget]
  have hdcf3 : dget (predict_cf s [((1 : Nat), (5 : α))] COMMUNITY 3) 3 = 5 := by
    rw [hcf]
    simp [dget, aget]
  have hdcf4 : dget (predict_cf s [((1 : Nat), (5 : α))] COMMUNITY 3) 4 = 5 := by
    rw [hcf]
    simp [dget, aget]
  have hcb := c9_cb_form s (build_tfidf lg MOVIES)
    (build_user_profile s (build_tfidf lg MOVIES) [(1, 5)])
  have hdcb1 : dget (predict_cb s (build_tfidf lg MOVIES)
      (build_user_profile s (build_tfidf lg MOVIES) [(1, 5)]) [(1, 5)]) 1 =
      0 := by
    rw [hcb]
    simp [dget, aget]
  have hdcb5 : dget (predict_cb s (build_tfidf lg MOVIES)
      (build_user_profile s (build_tfidf lg MOVIES) [(1, 5)]) [(1, 5)]) 5 =
      cosine_sim s (build_user_profile s (build_tfidf lg MOVIES) [(1, 5)])
        (aget [] (build_tfidf lg MOVIES) 5) * 5 := by
    rw [hcb]
    simp [dget, aget]
  have hc5pos : 0 < dget (predict_cb s (build_tfidf lg MOVIES)
      (build_user_profile s (build_tfidf lg MOVIES) [(1, 5)]) [(1, 5)]) 5 := by
    rw [hdcb5]
    exact mul_pos (c9_cos5_pos s lg hs hlog) (by norm_num)
  have hmem : ∀ m : Nat,
      m ∈ dkeys (pipelineHybrid s lg [(1, 5)]) ↔ m ∈ [2, 3, 4, 5] := by
    intro m
    rw [hpipe]
    constructor
    · intro hk
      obtain ⟨v, hv⟩ := mem_dkeys_iff.mp hk
      obtain ⟨hmids, hne, -⟩ := (mem_hybrid_iff _ _ _ _ _).mp hv
      rw [show movieIds = [1, 2, 3, 4, 5] from by decide] at hmids
      fin_cases hmids
      · exfalso
        rcases hne with h | h
        · exact h hdcf1
        · exact h hdcb1
      · decide
      · decide
      · decide
      · decide
    · intro hm
      fin_cases hm
      · exact mem_dkeys_iff.mpr ⟨_, (mem_hybrid_iff _ _ _ _ _).mpr
          ⟨by decide, Or.inl (by rw [hdcf2]; norm_num), rfl⟩⟩
      · exact mem_dkeys_iff.mpr ⟨_, (mem_hybrid_iff _ _ _ _ _).mpr
          ⟨by decide, Or.inl (by rw [hdcf3]; norm_num), rfl⟩⟩
      · exact mem_dkeys_iff.mpr ⟨_, (mem_hybrid_iff _ _ _ _ _).mpr
          ⟨by decide, Or.inl (by rw [hdcf4]; norm_num), rfl⟩⟩
      · exact mem_dkeys_iff.mpr ⟨_, (mem_hybrid_iff _ _ _ _ _).mpr
          ⟨by decide, Or.inr (ne_of_gt hc5pos), rfl⟩⟩
  have htake := c9_boosted_take s lg
  refine ⟨hmem, ?_, ?_⟩
  · intro m
    rw [pipelineRecs, htake, List.map_map]
    have hcomp : ((fun r : Nat × α × Bool => r.1) ∘
        (fun p : Nat × α => (p.1, p.2, boostFlag "sci-fi" p.1))) =
          Prod.fst := rfl
    rw [hcomp]
    exact (dkeys_boost_iff _ _ _).trans (hmem m)
  · intro r hr
    rw [pipelineRecs, htake, List.mem_map] at hr
    obtain ⟨p, hp, rfl⟩ := hr
    rw [apply_prompt_boost, if_neg (by decide : ("sci-fi" : String) ≠ ""),
      sortScoresDesc, (List.perm_insertionSort _ _).mem_iff,
      List.mem_map] at hp
    obtain ⟨q, hq, rfl⟩ := hp
    have hqpair : (q.1, q.2) ∈ pipelineHybrid s lg [(1, (5 : α))] := by
      rw [Prod.mk.eta]
      exact hq
    have hqid : q.1 ∈ movieIds := by
      rw [hpipe] at hqpair
      exact ((mem_hybrid_iff _ _ _ _ _).mp hqpair).1
    obtain ⟨hamt, hflag⟩ := c9_boostAmt (α := α) q.1 hqid
    exact ⟨q.2, hqpair, by rw [show ((q.1, q.2 + boostAmt "sci-fi" q.1).1,
      (q.1, q.2 + boostAmt "sci-fi" q.1).2, boostFlag "sci-fi"
        (q.1, q.2 + boostAmt "sci-fi" q.1).1).2.1 =
      q.2 + boostAmt "sci-fi" q.1 from rfl, hamt], hflag⟩

/-- Closed instance of `C9_theorem` over `ℚ`, with `ratSqrt` (positive on
positives) and the everywhere-zero logarithm stand-in. -/
theorem C9_theorem_witness :
    (∀ m : Nat,
      m ∈ dkeys (pipelineHybrid ratSqrt zeroLog [(1, 5)]) ↔ m ∈ [2, 3, 4, 5]) ∧
    (∀ m : Nat,
      m ∈ (pipelineRecs ratSqrt zeroLog [(1, 5)] "sci-fi").map (fun r => r.1) ↔
        m ∈ [2, 3, 4, 5]) ∧
    (∀ r ∈ pipelineRecs ratSqrt zeroLog [(1, 5)] "sci-fi",
      ∃ v : ℚ, (r.1, v) ∈ pipelineHybrid ratSqrt zeroLog [(1, 5)] ∧
        r.2.1 = v + (if "Sci-Fi" ∈ (movieById r.1).genres then 2 else 0) ∧
        r.2.2 = decide ("Sci-Fi" ∈ (movieById r.1).genres)) :=
  C9_theorem ratSqrt zeroLog (fun _ hx => ratSqrt_pos hx) (fun _ _ => le_refl 0)

end MovieRec
